import Mathlib

/-!
Verification development for the product import/export batch-job strategies of
this repository.

The import side (`ProductImportStrategy`) is embedded in the `ProductImport`
namespace: parsed CSV rows are finite association lists from dot-path keys to
cell values, the operation classifier (`getImportInstructions`), the price
resolver (`handleVariantPrices`), the Redis staging store, the commit-phase
runner (`processJob` with `updateProgress_`, `finalize_`, `handleImportError_`)
and the dynamic-column reducers of `CSVSchema` are translated function by
function.

The export side (`ProductExportStrategy`) is embedded in the `ProductExport`
namespace: the shape discoverer (`preProcessBatchJob`), the header builder
(`buildHeader` and the three `append*Descriptors` helpers, projected onto the
insertion-ordered key sequence of the column-descriptor map) and the streaming
writer loop of `processJob` with its page-wise progress persistence and
cancellation check.
-/

namespace ProductImport

/-- A price object as produced by the CSV price reducers and rebuilt by
`handleVariantPrices`.  A JS object carries any subset of these fields, so
every field is optional. -/
structure PriceObj where
  amount : Option String := none
  regionName : Option String := none
  currency_code : Option String := none
  region_id : Option String := none
deriving DecidableEq, Repr

/-- An option object as produced by the two option reducers (`title` for
`product.options` entries, `value` and `_title` for `variant.options`
entries, `option_id` filled in during variant commit). -/
structure OptionObj where
  title : Option String := none
  value : Option String := none
  _title : Option String := none
  option_id : Option String := none
deriving DecidableEq, Repr

/-- A value stored under one dot-path key of a parsed row. -/
inductive CellValue where
  | str (s : String)
  | prices (l : List PriceObj)
  | opts (l : List OptionObj)
  | images (l : List String)
  /-- The shipping-profile object stamped onto `product.profile_id`
  (represented by its id). -/
  | profile (id : String)
deriving DecidableEq, Repr

/-- A parsed CSV row (`TParsedRowData`): a finite map from dot-path keys to
cell values, represented as an association list with unique keys. -/
abbrev Row := List (String × CellValue)

/-- Property read `row[k]`; `none` plays the role of JS `undefined`. -/
def rowGet : Row → String → Option CellValue
  | [], _ => none
  | kv :: rest, k => if kv.1 == k then some kv.2 else rowGet rest k

/-- Property write `row[k] = v`: replace the binding if the key is present,
otherwise append a new binding. -/
def rowSet : Row → String → CellValue → Row
  | [], k, v => [(k, v)]
  | kv :: rest, k, v => if kv.1 == k then (k, v) :: rest else kv :: rowSet rest k v

/-- JS truthiness of a read property: `undefined` and the empty string are
falsy, arrays and objects are always truthy. -/
def truthy : Option CellValue → Bool
  | none => false
  | some (.str s) => s != ""
  | some _ => true

/-- JS truthiness of an optional string field. -/
def optTruthy : Option String → Bool
  | none => false
  | some s => s != ""

/-- Read `row["variant.prices"]` as an array; a missing or non-array value
reads as the empty array. -/
def getPrices (r : Row) : List PriceObj :=
  match rowGet r "variant.prices" with
  | some (.prices l) => l
  | _ => []

/-- The string key under which `seenProducts` indexes a row
(`row["product.handle"] as string`); JS property-key coercion renders a
missing value as `"undefined"`. -/
def handleKey (r : Row) : String :=
  match rowGet r "product.handle" with
  | some (.str s) => s
  | some _ => "[object Object]"
  | none => "undefined"

/-- `MedusaError` as raised by the import strategy (always of type
`INVALID_DATA` here), identified by its message. -/
inductive MedusaError where
  | invalidData (message : String)
deriving DecidableEq, Repr

/-- A region record as returned by the region repository. -/
structure Region where
  id : String
  name : String
deriving DecidableEq, Repr

/-- One step of `handleVariantPrices`: build the fresh price record for one
entry, resolving a truthy `regionName` through the region repository
(`findOne({ where: { name } })`, modelled as a lookup function). -/
def resolvePrice (regions : String → Option Region) (p : PriceObj) :
    Except MedusaError PriceObj :=
  if optTruthy p.regionName then
    match regions (p.regionName.getD "") with
    | none =>
        .error (.invalidData ("Trying to set a price for a region " ++
          p.regionName.getD "" ++ " that doesn't exist"))
    | some region => .ok { amount := p.amount, region_id := some region.id }
  else
    .ok { amount := p.amount, currency_code := p.currency_code }

/-- `handleVariantPrices`: rebuild the price list in order; the first missing
region aborts the whole row with an invalid-data error. -/
def handleVariantPrices (regions : String → Option Region) :
    List PriceObj → Except MedusaError (List PriceObj)
  | [] => .ok []
  | p :: ps => do
    let r ← resolvePrice regions p
    let rest ← handleVariantPrices regions ps
    .ok (r :: rest)

/-- C4 helper: a resolved record carries exactly one of `region_id` /
`currency_code`. -/
def exclusiveTag (r : PriceObj) : Prop :=
  (r.region_id.isSome ∧ r.currency_code = none) ∨
    (r.region_id = none ∧ r.currency_code.isSome)

instance (r : PriceObj) : Decidable (exclusiveTag r) := by
  unfold exclusiveTag; infer_instance

/-- The four operation batches returned by `getImportInstructions`. -/
structure ImportOps where
  productsCreate : List Row := []
  productsUpdate : List Row := []
  variantsCreate : List Row := []
  variantsUpdate : List Row := []
deriving DecidableEq, Repr

/-- One iteration of the classifier loop of `getImportInstructions` for one
row: resolve prices when the row's price list is non-empty, push the row into
a variant batch by truthiness of `variant.id`, and on the first occurrence of
its handle stamp the shipping profile and push it into a product batch by
truthiness of `row["product.product.id"]` (the key the source tests, verbatim).

In the source the same mutable row object is pushed into the variant batch
and, for a first occurrence, into a product batch, and `product.profile_id`
is stamped onto the shared object after the variant push; we model the final
value of the object, so the stamped row is what both batches hold. -/
def resolveRowPrices (regions : String → Option Region) (row : Row) :
    Except MedusaError Row :=
  if (getPrices row).length != 0 then
    (handleVariantPrices regions (getPrices row)).map
      (fun resolved => rowSet row "variant.prices" (.prices resolved))
  else .ok row

/-- The pure tail of one classifier iteration, applied to the row after price
resolution (`row1`). -/
def pushRow (shippingProfile : CellValue) (row row1 : Row)
    (seen : List String) (acc : ImportOps) : List String × ImportOps :=
  let handle := handleKey row
  let first := !(seen.contains handle)
  let rowF := if first then rowSet row1 "product.profile_id" shippingProfile else row1
  let acc1 :=
    if truthy (rowGet row "variant.id") then
      { acc with variantsUpdate := acc.variantsUpdate ++ [rowF] }
    else
      { acc with variantsCreate := acc.variantsCreate ++ [rowF] }
  let acc2 :=
    if first then
      if truthy (rowGet row "product.product.id") then
        { acc1 with productsUpdate := acc1.productsUpdate ++ [rowF] }
      else
        { acc1 with productsCreate := acc1.productsCreate ++ [rowF] }
    else acc1
  (if first then seen ++ [handle] else seen, acc2)

def classifyStep (regions : String → Option Region) (shippingProfile : CellValue)
    (row : Row) (seen : List String) (acc : ImportOps) :
    Except MedusaError (List String × ImportOps) :=
  (resolveRowPrices regions row).map
    (fun row1 => pushRow shippingProfile row row1 seen acc)

/-- The classifier loop of `getImportInstructions` over the remaining rows,
carrying the `seenProducts` set and the four accumulating batches. -/
def getImportInstructionsGo (regions : String → Option Region)
    (shippingProfile : CellValue) :
    List Row → List String → ImportOps → Except MedusaError ImportOps
  | [], _, acc => .ok acc
  | row :: rest, seen, acc => do
    let sa ← classifyStep regions shippingProfile row seen acc
    getImportInstructionsGo regions shippingProfile rest sa.1 sa.2

/-- `getImportInstructions`: classify the parsed rows into the four operation
batches. -/
def getImportInstructions (regions : String → Option Region)
    (shippingProfile : CellValue) (csvData : List Row) :
    Except MedusaError ImportOps :=
  getImportInstructionsGo regions shippingProfile csvData [] {}

/-- Number of rows of a batch whose handle key is `h`. -/
def countHandle (l : List Row) (h : String) : Nat :=
  (l.filter (fun r => handleKey r == h)).length

/-- Product-level operations produced for handle `h`. -/
def productOpsFor (ops : ImportOps) (h : String) : Nat :=
  countHandle ops.productsCreate h + countHandle ops.productsUpdate h

/-- Variant-level operations produced for handle `h`. -/
def variantOpsFor (ops : ImportOps) (h : String) : Nat :=
  countHandle ops.variantsCreate h + countHandle ops.variantsUpdate h

/-- Supported batch job ops (`OperationType`). -/
inductive OperationType where
  | ProductCreate
  | ProductUpdate
  | VariantCreate
  | VariantUpdate
deriving DecidableEq, Repr

/-- The string value of the `OperationType` enum member. -/
def opKey : OperationType → String
  | .ProductCreate => "PRODUCT_CREATE"
  | .ProductUpdate => "PRODUCT_UPDATE"
  | .VariantCreate => "VARIANT_CREATE"
  | .VariantUpdate => "VARIANT_UPDATE"

/-- Process this many variant rows before reporting progress. -/
def BATCH_SIZE : Nat := 100

/-- Observable state of one commit run: the `processedCounter` field, the
sequence of progress values persisted to the batch-job context, and the rows
successfully handed to the entity services, in order. -/
structure RunState where
  processedCounter : Nat := 0
  progressWrites : List Nat := []
  processed : List Row := []
deriving DecidableEq, Repr

/-- `updateProgress_`: bump the processed counter and persist it as progress
exactly when it is a multiple of `BATCH_SIZE`. -/
def updateProgress_ (st : RunState) : RunState :=
  let c := st.processedCounter + 1
  { st with
    processedCounter := c,
    progressWrites :=
      if c % BATCH_SIZE == 0 then st.progressWrites ++ [c] else st.progressWrites }

/-- JS template-literal rendering of a row field (`undefined` for a missing
key). -/
def showCell : Option CellValue → String
  | none => "undefined"
  | some (.str s) => s
  | some _ => "[object Object]"

/-- `handleImportError_`: the diagnostic invalid-data error describing the
offending row by its product id, product handle, variant id and variant
sku. -/
def handleImportError_ (row : Row) : MedusaError :=
  .invalidData ("Error while processing row with:\n      product id: " ++
    showCell (rowGet row "product.id") ++ ",\n      product handle: " ++
    showCell (rowGet row "product.handle") ++ ",\n      variant id: " ++
    showCell (rowGet row "variant.id") ++ "\n      variant sku: " ++
    showCell (rowGet row "variant.sku"))

/-- One commit phase (`createProducts` / `updateProducts` / `createVariants` /
`updateVariants`): process the staged rows in order; a failing service call
(abstracted by the `fails` oracle) raises the diagnostic error of
`handleImportError_`, skipping the progress update of that row and every
remaining row of the phase. -/
def runPhase (fails : Row → Bool) : List Row → RunState → RunState × Option MedusaError
  | [], st => (st, none)
  | row :: rest, st =>
    if fails row then (st, some (handleImportError_ row))
    else runPhase fails rest (updateProgress_ { st with processed := st.processed ++ [row] })

/-- `finalize_`: write final progress equal to the job context's total. -/
def finalize_ (total : Nat) (st : RunState) : RunState :=
  { st with progressWrites := st.progressWrites ++ [total] }

/-- `processJob`: run the four phases strictly in order inside one
transaction; the first error aborts everything after it; on full success
`finalize_` records completion. -/
def processJob (fails : OperationType → Row → Bool) (ops : ImportOps)
    (total : Nat) : RunState × Option MedusaError :=
  match runPhase (fails .ProductCreate) ops.productsCreate {} with
  | (st, some e) => (st, some e)
  | (st, none) =>
    match runPhase (fails .ProductUpdate) ops.productsUpdate st with
    | (st, some e) => (st, some e)
    | (st, none) =>
      match runPhase (fails .VariantCreate) ops.variantsCreate st with
      | (st, some e) => (st, some e)
      | (st, none) =>
        match runPhase (fails .VariantUpdate) ops.variantsUpdate st with
        | (st, some e) => (st, some e)
        | (st, none) => (finalize_ total st, none)

/-- The staged rows a given phase processes. -/
def phaseRows (ops : ImportOps) : OperationType → List Row
  | .ProductCreate => ops.productsCreate
  | .ProductUpdate => ops.productsUpdate
  | .VariantCreate => ops.variantsCreate
  | .VariantUpdate => ops.variantsUpdate

/-- The order in which `processJob` runs the phases. -/
def opOrder : List OperationType :=
  [.ProductCreate, .ProductUpdate, .VariantCreate, .VariantUpdate]

/-- The phases `processJob` runs strictly before `op`. -/
def earlierPhases (op : OperationType) : List OperationType :=
  opOrder.takeWhile (fun o => o != op)

/-- Total number of staged operations (the `total` the pre-process phase
stores in the job context). -/
def opsTotal (ops : ImportOps) : Nat :=
  ops.productsCreate.length + ops.productsUpdate.length +
    ops.variantsCreate.length + ops.variantsUpdate.length

/-- Progress values persisted while the counter runs from `c + 1` to
`c + n`. -/
def writesFrom (c n : Nat) : List Nat :=
  (List.range n).filterMap
    (fun i => if (c + i + 1) % BATCH_SIZE == 0 then some (c + i + 1) else none)

/-- The multiples of `BATCH_SIZE` up to `n`. -/
def progressCheckpoints (n : Nat) : List Nat :=
  (List.range (n / BATCH_SIZE)).map (fun i => BATCH_SIZE * (i + 1))

/-- The staging store: Redis modelled as an association list from keys to the
(JSON round-tripped) staged batches. -/
abbrev RedisStore := List (String × List Row)

/-- Redis `SET` (the one-hour expiry is not modelled). -/
def redisSet (st : RedisStore) (k : String) (v : List Row) : RedisStore :=
  if st.any (fun kv => kv.1 == k) then
    st.map (fun kv => if kv.1 == k then (k, v) else kv)
  else st ++ [(k, v)]

/-- Redis `GET`. -/
def redisGet (st : RedisStore) (k : String) : Option (List Row) :=
  (st.find? (fun kv => kv.1 == k)).map (fun kv => kv.2)

/-- Redis `DEL` of one literal key (`DEL` performs no glob expansion). -/
def redisDel (st : RedisStore) (k : String) : RedisStore :=
  st.filter (fun kv => kv.1 != k)

/-- The staging key `pij_<jobId>:<op>`. -/
def redisKeyFor (batchJobId : String) (op : OperationType) : String :=
  "pij_" ++ batchJobId ++ ":" ++ opKey op

/-- `setImportDataToRedis`: store each non-empty batch under its op key,
iterating the result object keys in insertion order. -/
def setImportDataToRedis (batchJobId : String) (results : ImportOps)
    (st : RedisStore) : RedisStore :=
  let st := if results.productsCreate.length != 0 then
      redisSet st (redisKeyFor batchJobId .ProductCreate) results.productsCreate
    else st
  let st := if results.variantsCreate.length != 0 then
      redisSet st (redisKeyFor batchJobId .VariantCreate) results.variantsCreate
    else st
  let st := if results.productsUpdate.length != 0 then
      redisSet st (redisKeyFor batchJobId .ProductUpdate) results.productsUpdate
    else st
  let st := if results.variantsUpdate.length != 0 then
      redisSet st (redisKeyFor batchJobId .VariantUpdate) results.variantsUpdate
    else st
  st

/-- `getImportDataFromRedis`: a missing or expired entry reads back as the
empty batch (`JSON.parse(... || "[]")`). -/
def getImportDataFromRedis (st : RedisStore) (batchJobId : String)
    (op : OperationType) : List Row :=
  (redisGet st (redisKeyFor batchJobId op)).getD []

/-- `clearRedisRecords`: `DEL` of the single literal key
`pij_<jobId>:*` (the `*` is part of the key text, not a pattern). -/
def clearRedisRecords (batchJobId : String) (st : RedisStore) : RedisStore :=
  redisDel st ("pij_" ++ batchJobId ++ ":*")

/-- JS `String.prototype.split` with a one-character separator: split into
(possibly empty) chunks between separator occurrences. -/
def jsSplit (sep : Char) : List Char → List (List Char)
  | [] => [[]]
  | c :: cs =>
    if c == sep then [] :: jsSplit sep cs
    else
      match jsSplit sep cs with
      | [] => [[c]]
      | w :: ws => (c :: w) :: ws

/-- `key.split(" ")[1]` (`none` when the key has no second chunk). -/
def splitToken1 (key : String) : Option String :=
  ((jsSplit ' ' key.data).get? 1).map (fun cs => String.mk cs)

/-- The `Price Region` reducer of `CSVSchema` (match `Price .* \[([A-Z]\x7b2,4\x7d)\]`):
initialise `variant.prices`, and for a defined cell value push
`{ amount, regionName: key.split(" ")[1] }`. -/
def priceRegionReducer (builtLine : Row) (key : String) (value : Option String) : Row :=
  let line := rowSet builtLine "variant.prices" (.prices (getPrices builtLine))
  match value with
  | none => line
  | some v =>
      rowSet line "variant.prices"
        (.prices (getPrices builtLine ++ [{ amount := some v, regionName := splitToken1 key }]))

/-- The `Price Currency` reducer of `CSVSchema` (match `Price [A-Z]\x7b2,4\x7d`):
initialise `variant.prices`, and for a defined cell value push
`{ amount, currency_code: key.split(" ")[1] }`. -/
def priceCurrencyReducer (builtLine : Row) (key : String) (value : Option String) : Row :=
  let line := rowSet builtLine "variant.prices" (.prices (getPrices builtLine))
  match value with
  | none => line
  | some v =>
      rowSet line "variant.prices"
        (.prices (getPrices builtLine ++ [{ amount := some v, currency_code := splitToken1 key }]))

end ProductImport

namespace ProductExport

/-- A region as loaded through the `variants.prices.region` relation. -/
structure ExpRegion where
  id : String
  name : String
  currency_code : String
deriving DecidableEq, Repr

/-- A money amount on a variant (`currency_code` may be absent, `region` may
be absent). -/
structure ExpPrice where
  amount : Nat := 0
  currency_code : Option String := none
  region : Option ExpRegion := none
deriving DecidableEq, Repr

/-- A product variant (only the fields the export engine touches). -/
structure ExpVariant where
  prices : List ExpPrice := []
deriving DecidableEq, Repr

/-- A product as listed by the product service (only the fields the export
engine touches). -/
structure ExpProduct where
  options : List String := []
  images : List String := []
  variants : List ExpVariant := []
deriving DecidableEq, Repr

/-- The value-equality key under which `preProcessBatchJob` deduplicates
price columns (the JSON-stringified
`{ currency_code: price.currency_code ?? price.region?.currency_code,
region: price.region ? { name, id } : undefined }`). -/
structure PriceKey where
  currency_code : Option String := none
  region : Option (String × String) := none
deriving DecidableEq, Repr

/-- The price key recorded for one money amount. -/
def priceKeyOf (p : ExpPrice) : PriceKey :=
  { currency_code :=
      match p.currency_code with
      | some c => some c
      | none => p.region.map (fun r => r.currency_code),
    region := p.region.map (fun r => (r.name, r.id)) }

/-- `Set.add` on the value-equality set of price keys (a JS `Set` keeps
insertion order and ignores re-insertions). -/
def jsSetAdd (acc : List PriceKey) (k : PriceKey) : List PriceKey :=
  if k ∈ acc then acc else acc ++ [k]

/-- The price keys one product contributes, in order (the
`if (variant.prices?.length)` guard of the source kept verbatim). -/
def productPriceKeys (p : ExpProduct) : List PriceKey :=
  p.variants.flatMap
    (fun v => if v.prices.length != 0 then v.prices.map priceKeyOf else [])

/-- The shape stored into the job context by `preProcessBatchJob`. -/
structure Shape where
  dynamicOptionColumnCount : Nat := 0
  dynamicImageColumnCount : Nat := 0
  prices : List PriceKey := []
deriving DecidableEq, Repr

/-- The shape-discovery pass of `preProcessBatchJob` over the sequence of
products it pages through: running maxima of the option and image counts, and
the insertion-ordered set of distinct price keys. -/
def discoverShape (products : List ExpProduct) : Shape :=
  { dynamicOptionColumnCount :=
      products.foldl (fun m p => max m p.options.length) 0,
    dynamicImageColumnCount :=
      products.foldl (fun m p => max m p.images.length) 0,
    prices :=
      products.foldl (fun acc p => (productPriceKeys p).foldl jsSetAdd acc) [] }

/-- JS `String.prototype.toUpperCase` (ASCII), character by character. -/
def strUpper (s : String) : String := ⟨s.data.map Char.toUpper⟩

/-- JS `String.prototype.toLowerCase` (ASCII), character by character. -/
def strLower (s : String) : String := ⟨s.data.map Char.toLower⟩

/-- `Map.set` on the insertion-ordered column-descriptor map, projected onto
its key sequence (descriptor values — the accessors — play no role in the
claims about column identity and count): an existing key keeps its position,
a new key is appended. -/
def mapSet (cols : List String) (name : String) : List String :=
  if name ∈ cols then cols else cols ++ [name]

/-- The column names one price key generates in `appendMoneyAmountDescriptors`,
in branch order: a currency-labelled column when the key's `currency_code` is
truthy, then a region-labelled column when the key carries a region. -/
def priceKeyColumnNames (k : PriceKey) : List String :=
  (match k.currency_code with
   | some cc =>
       if cc != "" then
         ["Price " ++ strUpper cc ++ " " ++
           (match k.region with
            | some r => if r.2 != "" then "(" ++ r.2 ++ ")" else ""
            | none => "")]
       else []
   | none => []) ++
  (match k.region with
   | some r =>
       ["Price " ++ strLower r.1 ++ " " ++
         (if r.2 != "" then "(" ++ r.2 ++ ")" else "")]
   | none => [])

/-- `appendMoneyAmountDescriptors`: set the generated price columns into the
descriptor map, one price key after the other. -/
def appendMoneyAmountDescriptors (cols : List String)
    (pricesData : List PriceKey) : List String :=
  pricesData.foldl (fun cs k => (priceKeyColumnNames k).foldl mapSet cs) cols

/-- `appendOptionsDescriptors`: one `Option i Name` / `Option i Value` column
pair per option slot. -/
def appendOptionsDescriptors (cols : List String) (maxOptionsCount : Nat) :
    List String :=
  (List.range maxOptionsCount).foldl
    (fun cs i =>
      mapSet (mapSet cs ("Option " ++ toString (i + 1) ++ " Name"))
        ("Option " ++ toString (i + 1) ++ " Value")) cols

/-- `appendImagesDescriptors`: one `Image i Url` column per image slot. -/
def appendImagesDescriptors (cols : List String) (maxImagesCount : Nat) :
    List String :=
  (List.range maxImagesCount).foldl
    (fun cs i => mapSet cs ("Image " ++ toString (i + 1) ++ " Url")) cols

/-- `buildHeader`, projected onto the key sequence of the descriptor map:
extend the static columns with the dynamic price, option and image columns,
in that order. -/
def buildHeader (staticColumns : List String) (shape : Shape) : List String :=
  appendImagesDescriptors
    (appendOptionsDescriptors
      (appendMoneyAmountDescriptors staticColumns shape.prices)
      shape.dynamicOptionColumnCount)
    shape.dynamicImageColumnCount

/-- The full list of dynamic column names `buildHeader` generates for a
shape, in generation order. -/
def dynamicColumnNames (shape : Shape) : List String :=
  shape.prices.flatMap priceKeyColumnNames ++
    (List.range shape.dynamicOptionColumnCount).flatMap
      (fun i => ["Option " ++ toString (i + 1) ++ " Name",
                 "Option " ++ toString (i + 1) ++ " Value"]) ++
    (List.range shape.dynamicImageColumnCount).map
      (fun i => "Image " ++ toString (i + 1) ++ " Url")

/-- Whether a price key fires the currency-labelled branch of
`appendMoneyAmountDescriptors`. -/
def hasTruthyCurrency (k : PriceKey) : Bool :=
  match k.currency_code with
  | some cc => cc != ""
  | none => false

/-- Observable outcome of the export `processJob` loop: the pages written to
the output stream, the `advancement_count` values persisted to the job
result after each page, and whether the partial output file was deleted. -/
structure ExportRun where
  writtenPages : List (List ExpProduct) := []
  persisted : List Nat := []
  fileDeleted : Bool := false
deriving DecidableEq, Repr

/-- The page loop of the export `processJob`: while `offset < productCount`,
fetch the page at `offset` (the listing service re-queried with
`skip = offset, take = limit` over the job's dataset `all`), write its
product/variant lines, advance `advancementCount` and `offset`, persist the
job result, and stop — ending the stream and deleting the uploaded file — as
soon as the freshly updated job reads `CANCELED` (the `status` oracle,
indexed by the number of the check).  `fuel` bounds the iteration count; the
theorems supply enough fuel for the loop to run to its exit condition. -/
def processPagesGo (status : Nat → Bool) (all : List ExpProduct) (limit : Nat) :
    Nat → Nat → Nat → Nat → ExportRun → ExportRun
  | 0, _, _, _, st => st
  | fuel + 1, offset, advancementCount, pageIdx, st =>
    if offset < all.length then
      let page := (all.drop offset).take limit
      let advancementCount := advancementCount + page.length
      let st := { st with
        writtenPages := st.writtenPages ++ [page],
        persisted := st.persisted ++ [advancementCount] }
      if status (pageIdx + 1) then { st with fileDeleted := true }
      else
        processPagesGo status all limit fuel (offset + page.length)
          advancementCount (pageIdx + 1) st
    else st

/-- The export `processJob` page loop started from the beginning of the
dataset (no prior `advancement_count`, `skip = 0`). -/
def processJob (status : Nat → Bool) (all : List ExpProduct) (limit : Nat) :
    ExportRun :=
  processPagesGo status all limit (all.length + 1) 0 0 0 {}

/-- The pages `skip`/`take` paging carves a dataset into (`fuel`-bounded
auxiliary). -/
def chunksGo (limit : Nat) : Nat → List ExpProduct → List (List ExpProduct)
  | 0, _ => []
  | _, [] => []
  | fuel + 1, l => l.take limit :: chunksGo limit fuel (l.drop limit)

/-- The pages `skip`/`take` paging carves a dataset into. -/
def chunks (limit : Nat) (l : List ExpProduct) : List (List ExpProduct) :=
  chunksGo limit l.length l

/-- The `advancement_count` values persisted after each of a sequence of
pages, starting from `adv`. -/
def advTrace (adv : Nat) : List (List ExpProduct) → List Nat
  | [] => []
  | c :: cs => (adv + c.length) :: advTrace (adv + c.length) cs

end ProductExport

namespace ProductImport

theorem rowGet_rowSet_ne (r : Row) (k k' : String) (v : CellValue) (h : k' ≠ k) :
    rowGet (rowSet r k v) k' = rowGet r k' := by
  induction r with
  | nil =>
      simp only [rowSet, rowGet]
      rw [if_neg (by simpa using fun he => h he.symm)]
  | cons kv rest ih =>
      simp only [rowSet]
      by_cases hk : kv.1 == k
      · rw [if_pos hk]
        simp only [rowGet]
        rw [if_neg (by simpa using fun he => h he.symm), if_neg]
        intro hcontra
        exact h (by
          have h1 : kv.1 = k := by simpa using hk
          have h2 : kv.1 = k' := by simpa using hcontra
          rw [← h2, h1])
      · rw [if_neg hk]
        simp only [rowGet, ih]

theorem rowGet_rowSet_self (r : Row) (k : String) (v : CellValue) :
    rowGet (rowSet r k v) k = some v := by
  induction r with
  | nil => simp [rowSet, rowGet]
  | cons kv rest ih =>
      simp only [rowSet]
      by_cases hk : kv.1 == k
      · rw [if_pos hk]; simp [rowGet]
      · rw [if_neg hk]
        simp only [rowGet]
        rw [if_neg hk]
        exact ih

theorem handleKey_rowSet (r : Row) (k : String) (v : CellValue)
    (h : k ≠ "product.handle") :
    handleKey (rowSet r k v) = handleKey r := by
  unfold handleKey
  rw [rowGet_rowSet_ne r k "product.handle" v (fun hc => h hc.symm)]

theorem countHandle_append (l : List Row) (r : Row) (h : String) :
    countHandle (l ++ [r]) h =
      countHandle l h + (if handleKey r == h then 1 else 0) := by
  unfold countHandle
  rw [List.filter_append, List.length_append]
  by_cases hr : handleKey r == h
  · simp [hr]
  · simp [hr]

/-- Stamping `product.profile_id` does not change the handle key. -/
theorem handleKey_stamp (row1 : Row) (sp : CellValue) (first : Bool) :
    handleKey (if first then rowSet row1 "product.profile_id" sp else row1) =
      handleKey row1 := by
  cases first
  · rfl
  · simpa using handleKey_rowSet row1 "product.profile_id" sp (by decide)

theorem countHandle_cons (row : Row) (rest : List Row) (h : String) :
    countHandle (row :: rest) h =
      (if handleKey row == h then 1 else 0) + countHandle rest h := by
  unfold countHandle
  by_cases hr : handleKey row == h
  · simp only [List.filter_cons, hr, if_pos, List.length_cons, if_true]
    omega
  · simp [List.filter_cons, hr]

/-- A successfully price-resolved row keeps its handle key. -/
theorem resolveRowPrices_handleKey (regions : String → Option Region)
    (row row1 : Row) (hok : resolveRowPrices regions row = .ok row1) :
    handleKey row1 = handleKey row := by
  unfold resolveRowPrices at hok
  by_cases hp : ((getPrices row).length != 0) = true
  · rw [if_pos hp] at hok
    cases hres : handleVariantPrices regions (getPrices row) with
    | error e => rw [hres] at hok; cases hok
    | ok resolved =>
        rw [hres] at hok
        simp only [Except.map, Except.ok.injEq] at hok
        rw [← hok]
        exact handleKey_rowSet row "variant.prices" _ (by decide)
  · rw [if_neg hp] at hok
    simp only [Except.ok.injEq] at hok
    rw [← hok]

/-- What the pure part of one classifier iteration does to the seen set and
to the per-handle operation counts. -/
theorem pushRow_spec (sp : CellValue) (row row1 : Row)
    (seen : List String) (acc : ImportOps) (h₀ : String)
    (hk1 : handleKey row1 = handleKey row) :
    (pushRow sp row row1 seen acc).1 =
      (if seen.contains (handleKey row) then seen else seen ++ [handleKey row]) ∧
    productOpsFor (pushRow sp row row1 seen acc).2 h₀ =
      productOpsFor acc h₀ +
        (if seen.contains (handleKey row) then 0
         else if handleKey row == h₀ then 1 else 0) ∧
    variantOpsFor (pushRow sp row row1 seen acc).2 h₀ =
      variantOpsFor acc h₀ + (if handleKey row == h₀ then 1 else 0) := by
  have hkF : ∀ first : Bool, handleKey
      (if first then rowSet row1 "product.profile_id" sp else row1) =
        handleKey row := fun first => (handleKey_stamp row1 sp first).trans hk1
  have hkT : handleKey (rowSet row1 "product.profile_id" sp) = handleKey row := by
    simpa using hkF true
  refine ⟨?_, ?_, ?_⟩
  · cases hc : seen.contains (handleKey row) with
    | false =>
        have hm : handleKey row ∉ seen := by simpa using hc
        simp [pushRow, hm]
    | true =>
        have hm : handleKey row ∈ seen := by simpa using hc
        simp [pushRow, hm]
  · by_cases hrow : handleKey row = h₀
    · subst hrow
      cases hc : seen.contains (handleKey row) with
      | false =>
          have hm : handleKey row ∉ seen := by simpa using hc
          by_cases hv : truthy (rowGet row "variant.id") <;>
            by_cases hpid : truthy (rowGet row "product.product.id") <;>
              simp [pushRow, productOpsFor, hm, hv, hpid,
                countHandle_append, hkT, hk1] <;> omega
      | true =>
          have hm : handleKey row ∈ seen := by simpa using hc
          by_cases hv : truthy (rowGet row "variant.id") <;>
            simp [pushRow, productOpsFor, hm, hv]
    · cases hc : seen.contains (handleKey row) with
      | false =>
          have hm : handleKey row ∉ seen := by simpa using hc
          by_cases hv : truthy (rowGet row "variant.id") <;>
            by_cases hpid : truthy (rowGet row "product.product.id") <;>
              simp [pushRow, productOpsFor, hm, hv, hpid, hrow,
                countHandle_append, hkT, hk1]
      | true =>
          have hm : handleKey row ∈ seen := by simpa using hc
          by_cases hv : truthy (rowGet row "variant.id") <;>
            simp [pushRow, productOpsFor, hm, hv, hrow]
  · by_cases hrow : handleKey row = h₀
    · subst hrow
      cases hc : seen.contains (handleKey row) with
      | false =>
          have hm : handleKey row ∉ seen := by simpa using hc
          by_cases hv : truthy (rowGet row "variant.id") <;>
            by_cases hpid : truthy (rowGet row "product.product.id") <;>
              simp [pushRow, variantOpsFor, hm, hv, hpid,
                countHandle_append, hkT, hk1] <;> omega
      | true =>
          have hm : handleKey row ∈ seen := by simpa using hc
          by_cases hv : truthy (rowGet row "variant.id") <;>
            simp [pushRow, variantOpsFor, hm, hv,
              countHandle_append, hkT, hk1] <;> omega
    · cases hc : seen.contains (handleKey row) with
      | false =>
          have hm : handleKey row ∉ seen := by simpa using hc
          by_cases hv : truthy (rowGet row "variant.id") <;>
            by_cases hpid : truthy (rowGet row "product.product.id") <;>
              simp [pushRow, variantOpsFor, hm, hv, hpid, hrow,
                countHandle_append, hkT, hk1]
      | true =>
          have hm : handleKey row ∈ seen := by simpa using hc
          by_cases hv : truthy (rowGet row "variant.id") <;>
            simp [pushRow, variantOpsFor, hm, hv, hrow,
              countHandle_append, hkT, hk1]

/-- What one classifier iteration does to the seen set and to the per-handle
operation counts. -/
theorem classifyStep_ok_spec (regions : String → Option Region)
    (sp : CellValue) (row : Row) (seen seen' : List String)
    (acc acc2 : ImportOps) (h₀ : String)
    (hok : classifyStep regions sp row seen acc = .ok (seen', acc2)) :
    seen' = (if seen.contains (handleKey row) then seen else seen ++ [handleKey row]) ∧
    productOpsFor acc2 h₀ =
      productOpsFor acc h₀ +
        (if seen.contains (handleKey row) then 0
         else if handleKey row == h₀ then 1 else 0) ∧
    variantOpsFor acc2 h₀ =
      variantOpsFor acc h₀ + (if handleKey row == h₀ then 1 else 0) := by
  unfold classifyStep at hok
  cases hb : resolveRowPrices regions row with
  | error e => rw [hb] at hok; cases hok
  | ok row1 =>
      rw [hb] at hok
      simp only [Except.map, Except.ok.injEq] at hok
      have hk1 := resolveRowPrices_handleKey regions row row1 hb
      obtain ⟨hseen, hprod, hvar⟩ := pushRow_spec sp row row1 seen acc h₀ hk1
      rw [hok] at hseen hprod hvar
      exact ⟨hseen, hprod, hvar⟩

/-- Counting invariant of the classifier loop, for one fixed handle `h₀`. -/
theorem getImportInstructionsGo_counts (regions : String → Option Region)
    (sp : CellValue) (h₀ : String) :
    ∀ (rows : List Row) (seen : List String) (acc res : ImportOps),
      getImportInstructionsGo regions sp rows seen acc = .ok res →
      productOpsFor res h₀ =
        productOpsFor acc h₀ +
          (if h₀ ∈ seen then 0 else if countHandle rows h₀ = 0 then 0 else 1) ∧
      variantOpsFor res h₀ = variantOpsFor acc h₀ + countHandle rows h₀ := by
  intro rows
  induction rows with
  | nil =>
      intro seen acc res hok
      simp only [getImportInstructionsGo, Except.ok.injEq] at hok
      subst hok
      constructor
      · simp [countHandle]
      · simp [countHandle]
  | cons row rest ih =>
      intro seen acc res hok
      simp only [getImportInstructionsGo, bind, Except.bind] at hok
      cases hstep : classifyStep regions sp row seen acc with
      | error e => rw [hstep] at hok; cases hok
      | ok sa =>
          rw [hstep] at hok
          obtain ⟨hseen, hprod, hvar⟩ :=
            classifyStep_ok_spec regions sp row seen sa.1 acc sa.2 h₀ hstep
          obtain ⟨ihp, ihv⟩ := ih sa.1 sa.2 res hok
          constructor
          · rw [ihp, hprod, countHandle_cons]
            by_cases hrow : handleKey row = h₀
            · subst hrow
              by_cases hs : handleKey row ∈ seen
              · have hc : seen.contains (handleKey row) = true := by simpa using hs
                have hs1 : handleKey row ∈ sa.1 := by
                  rw [hseen, if_pos hc]; exact hs
                simp [hc, hs, hs1]
              · have hc : seen.contains (handleKey row) = false := by simpa using hs
                have hs1 : handleKey row ∈ sa.1 := by
                  rw [hseen, if_neg (by simpa using hs)]
                  exact List.mem_append_right _ (by simp)
                simp [hc, hs, hs1]
            · have hs1 : (h₀ ∈ sa.1) ↔ (h₀ ∈ seen) := by
                rw [hseen]
                by_cases hc : seen.contains (handleKey row) = true
                · rw [if_pos hc]
                · rw [if_neg hc]
                  constructor
                  · intro hmem
                    rcases List.mem_append.mp hmem with h | h
                    · exact h
                    · exact absurd (List.mem_singleton.mp h).symm hrow
                  · intro hmem; exact List.mem_append_left _ hmem
              by_cases hs : h₀ ∈ seen
              · have hs1' := hs1.mpr hs
                by_cases hc : seen.contains (handleKey row) = true <;>
                  simp [hrow, hs, hs1', hc]
              · have hs1' : ¬ h₀ ∈ sa.1 := fun hmem => hs (hs1.mp hmem)
                by_cases hc : seen.contains (handleKey row) = true <;>
                  simp [hrow, hs, hs1', hc]
          · rw [ihv, hvar, countHandle_cons]
            by_cases hrow : handleKey row = h₀
            · simp [hrow]; omega
            · simp [hrow]

/-- C3: for any input in which `N ≥ 1` rows share the product handle `h₀`,
successful classification yields exactly one product-level operation for
`h₀` and exactly `N` variant-level operations, each row going to exactly one
of the two variant batches. -/
theorem classification_dedup (regions : String → Option Region)
    (sp : CellValue) (csvData : List Row) (res : ImportOps) (h₀ : String)
    (hok : getImportInstructions regions sp csvData = .ok res)
    (hN : 1 ≤ countHandle csvData h₀) :
    productOpsFor res h₀ = 1 ∧
    variantOpsFor res h₀ = countHandle csvData h₀ := by
  obtain ⟨hp, hv⟩ :=
    getImportInstructionsGo_counts regions sp h₀ csvData [] {} res hok
  have hp0 : productOpsFor {} h₀ = 0 := by simp [productOpsFor, countHandle]
  have hv0 : variantOpsFor {} h₀ = 0 := by simp [variantOpsFor, countHandle]
  refine ⟨?_, ?_⟩
  · rw [hp, hp0]
    have hne : ¬ countHandle csvData h₀ = 0 := by omega
    simp [hne]
  · rw [hv, hv0]
    simp

/-- C4: every record produced by `handleVariantPrices` from an entry that
carries a (truthy) region name or a currency code has exactly one of
`region_id` / `currency_code`. -/
theorem handleVariantPrices_exclusive (regions : String → Option Region)
    (prices out : List PriceObj)
    (hin : ∀ p ∈ prices, optTruthy p.regionName = true ∨ p.currency_code.isSome)
    (hok : handleVariantPrices regions prices = .ok out) :
    ∀ r ∈ out, exclusiveTag r := by
  induction prices generalizing out with
  | nil =>
      simp only [handleVariantPrices] at hok
      cases hok
      intro r hr; cases hr
  | cons p ps ih =>
      simp only [handleVariantPrices, bind, Except.bind] at hok
      rcases hp : resolvePrice regions p with e | r₀
      · rw [hp] at hok; cases hok
      · rw [hp] at hok
        rcases hrest : handleVariantPrices regions ps with e | rest
        · rw [hrest] at hok; cases hok
        · rw [hrest] at hok
          simp only [Except.ok.injEq] at hok
          subst hok
          intro r hr
          rcases List.mem_cons.mp hr with rfl | hr'
          · -- the head record
            unfold resolvePrice at hp
            by_cases htr : optTruthy p.regionName = true
            · rw [if_pos htr] at hp
              cases hreg : regions (p.regionName.getD "") with
              | none => rw [hreg] at hp; cases hp
              | some reg =>
                  rw [hreg] at hp
                  simp only [Except.ok.injEq] at hp
                  subst hp
                  exact Or.inl ⟨rfl, rfl⟩
            · rw [if_neg htr] at hp
              simp only [Except.ok.injEq] at hp
              subst hp
              rcases hin p (List.mem_cons_self p ps) with h | h
              · exact absurd h htr
              · exact Or.inr ⟨rfl, h⟩
          · exact ih rest (fun q hq => hin q (List.mem_cons_of_mem p hq)) hrest r hr'

/-- Closed witness for `handleVariantPrices_exclusive` at a concrete region
repository and price list. -/
theorem handleVariantPrices_exclusive_witness :
    (∀ p ∈ [({ amount := some "130", regionName := some "denmark" } : PriceObj),
            { amount := some "110", currency_code := some "USD" }],
        optTruthy p.regionName = true ∨ p.currency_code.isSome) ∧
    (∀ r ∈ [({ amount := some "130", region_id := some "reg_1" } : PriceObj),
            { amount := some "110", currency_code := some "USD" }],
        exclusiveTag r) :=
  ⟨by decide,
    handleVariantPrices_exclusive
      (fun n => if n == "denmark" then some { id := "reg_1", name := "denmark" } else none)
      [{ amount := some "130", regionName := some "denmark" },
       { amount := some "110", currency_code := some "USD" }]
      [{ amount := some "130", region_id := some "reg_1" },
       { amount := some "110", currency_code := some "USD" }]
      (by decide) (by rfl)⟩

/-- Closed witness for `classification_dedup`: three rows, the last two
sharing the handle `"test-product-product-2"`. -/
theorem classification_dedup_witness :
    (getImportInstructions (fun _ => none) (.profile "default_shipping_profile")
        [[("product.handle", .str "test-product-product-1"),
          ("variant.sku", .str "test-sku-1"), ("variant.prices", .prices [])],
         [("product.handle", .str "test-product-product-2"),
          ("variant.sku", .str "test-sku-2"), ("variant.prices", .prices [])],
         [("product.handle", .str "test-product-product-2"),
          ("variant.sku", .str "test-sku-3"), ("variant.prices", .prices [])]] =
      .ok
        { productsCreate :=
            [[("product.handle", .str "test-product-product-1"),
              ("variant.sku", .str "test-sku-1"), ("variant.prices", .prices []),
              ("product.profile_id", .profile "default_shipping_profile")],
             [("product.handle", .str "test-product-product-2"),
              ("variant.sku", .str "test-sku-2"), ("variant.prices", .prices []),
              ("product.profile_id", .profile "default_shipping_profile")]],
          variantsCreate :=
            [[("product.handle", .str "test-product-product-1"),
              ("variant.sku", .str "test-sku-1"), ("variant.prices", .prices []),
              ("product.profile_id", .profile "default_shipping_profile")],
             [("product.handle", .str "test-product-product-2"),
              ("variant.sku", .str "test-sku-2"), ("variant.prices", .prices []),
              ("product.profile_id", .profile "default_shipping_profile")],
             [("product.handle", .str "test-product-product-2"),
              ("variant.sku", .str "test-sku-3"), ("variant.prices", .prices [])]] }) ∧
    1 ≤ countHandle
        [[("product.handle", .str "test-product-product-1"),
          ("variant.sku", .str "test-sku-1"), ("variant.prices", .prices [])],
         [("product.handle", .str "test-product-product-2"),
          ("variant.sku", .str "test-sku-2"), ("variant.prices", .prices [])],
         [("product.handle", .str "test-product-product-2"),
          ("variant.sku", .str "test-sku-3"), ("variant.prices", .prices [])]]
        "test-product-product-2" ∧
    (productOpsFor
        { productsCreate :=
            [[("product.handle", .str "test-product-product-1"),
              ("variant.sku", .str "test-sku-1"), ("variant.prices", .prices []),
              ("product.profile_id", .profile "default_shipping_profile")],
             [("product.handle", .str "test-product-product-2"),
              ("variant.sku", .str "test-sku-2"), ("variant.prices", .prices []),
              ("product.profile_id", .profile "default_shipping_profile")]],
          variantsCreate :=
            [[("product.handle", .str "test-product-product-1"),
              ("variant.sku", .str "test-sku-1"), ("variant.prices", .prices []),
              ("product.profile_id", .profile "default_shipping_profile")],
             [("product.handle", .str "test-product-product-2"),
              ("variant.sku", .str "test-sku-2"), ("variant.prices", .prices []),
              ("product.profile_id", .profile "default_shipping_profile")],
             [("product.handle", .str "test-product-product-2"),
              ("variant.sku", .str "test-sku-3"), ("variant.prices", .prices [])]] }
        "test-product-product-2" = 1 ∧
      variantOpsFor
        { productsCreate :=
            [[("product.handle", .str "test-product-product-1"),
              ("variant.sku", .str "test-sku-1"), ("variant.prices", .prices []),
              ("product.profile_id", .profile "default_shipping_profile")],
             [("product.handle", .str "test-product-product-2"),
              ("variant.sku", .str "test-sku-2"), ("variant.prices", .prices []),
              ("product.profile_id", .profile "default_shipping_profile")]],
          variantsCreate :=
            [[("product.handle", .str "test-product-product-1"),
              ("variant.sku", .str "test-sku-1"), ("variant.prices", .prices []),
              ("product.profile_id", .profile "default_shipping_profile")],
             [("product.handle", .str "test-product-product-2"),
              ("variant.sku", .str "test-sku-2"), ("variant.prices", .prices []),
              ("product.profile_id", .profile "default_shipping_profile")],
             [("product.handle", .str "test-product-product-2"),
              ("variant.sku", .str "test-sku-3"), ("variant.prices", .prices [])]] }
        "test-product-product-2" =
        countHandle
          [[("product.handle", .str "test-product-product-1"),
            ("variant.sku", .str "test-sku-1"), ("variant.prices", .prices [])],
           [("product.handle", .str "test-product-product-2"),
            ("variant.sku", .str "test-sku-2"), ("variant.prices", .prices [])],
           [("product.handle", .str "test-product-product-2"),
            ("variant.sku", .str "test-sku-3"), ("variant.prices", .prices [])]]
          "test-product-product-2") :=
  ⟨by rfl, by decide,
    classification_dedup (fun _ => none) (.profile "default_shipping_profile")
      [[("product.handle", .str "test-product-product-1"),
        ("variant.sku", .str "test-sku-1"), ("variant.prices", .prices [])],
       [("product.handle", .str "test-product-product-2"),
        ("variant.sku", .str "test-sku-2"), ("variant.prices", .prices [])],
       [("product.handle", .str "test-product-product-2"),
        ("variant.sku", .str "test-sku-3"), ("variant.prices", .prices [])]]
      { productsCreate :=
          [[("product.handle", .str "test-product-product-1"),
            ("variant.sku", .str "test-sku-1"), ("variant.prices", .prices []),
            ("product.profile_id", .profile "default_shipping_profile")],
           [("product.handle", .str "test-product-product-2"),
            ("variant.sku", .str "test-sku-2"), ("variant.prices", .prices []),
            ("product.profile_id", .profile "default_shipping_profile")]],
        variantsCreate :=
          [[("product.handle", .str "test-product-product-1"),
            ("variant.sku", .str "test-sku-1"), ("variant.prices", .prices []),
            ("product.profile_id", .profile "default_shipping_profile")],
           [("product.handle", .str "test-product-product-2"),
            ("variant.sku", .str "test-sku-2"), ("variant.prices", .prices []),
            ("product.profile_id", .profile "default_shipping_profile")],
           [("product.handle", .str "test-product-product-2"),
            ("variant.sku", .str "test-sku-3"), ("variant.prices", .prices [])]] }
      "test-product-product-2" (by rfl) (by decide)⟩

/-- C1: a parsed row that is the first occurrence of its handle and carries
the product identifier field `product.id` (the path the schema's
`Product id` column maps to, and the field `updateProducts` reads) is routed
into the product-create batch, not product-update: the classifier tests the
key `product.product.id`, which no schema column ever produces. -/
theorem productId_row_routed_to_create :
    truthy (rowGet
      [("product.id", .str "O6S1YQ6mKm"),
       ("product.handle", .str "test-product-product-1"),
       ("variant.sku", .str "test-sku-1"),
       ("variant.prices", .prices [])] "product.id") = true ∧
    getImportInstructions (fun _ => none) (.profile "sp_1")
        [[("product.id", .str "O6S1YQ6mKm"),
          ("product.handle", .str "test-product-product-1"),
          ("variant.sku", .str "test-sku-1"),
          ("variant.prices", .prices [])]] =
      .ok
        { productsCreate :=
            [[("product.id", .str "O6S1YQ6mKm"),
              ("product.handle", .str "test-product-product-1"),
              ("variant.sku", .str "test-sku-1"),
              ("variant.prices", .prices []),
              ("product.profile_id", .profile "sp_1")]],
          productsUpdate := [],
          variantsCreate :=
            [[("product.id", .str "O6S1YQ6mKm"),
              ("product.handle", .str "test-product-product-1"),
              ("variant.sku", .str "test-sku-1"),
              ("variant.prices", .prices []),
              ("product.profile_id", .profile "sp_1")]],
          variantsUpdate := [] } :=
  ⟨by decide, by rfl⟩

theorem writesFrom_zero (c : Nat) : writesFrom c 0 = [] := rfl

theorem writesFrom_succ (c n : Nat) :
    writesFrom c (n + 1) =
      (if (c + 1) % BATCH_SIZE == 0 then [c + 1] else []) ++ writesFrom (c + 1) n := by
  unfold writesFrom
  rw [List.range_succ_eq_map, List.filterMap_cons, List.filterMap_map]
  have heq : ((fun i => if (c + i + 1) % BATCH_SIZE == 0
        then some (c + i + 1) else none) ∘ Nat.succ) =
      (fun i => if (c + 1 + i + 1) % BATCH_SIZE == 0
        then some (c + 1 + i + 1) else none) := by
    funext i
    simp only [Function.comp_apply, Nat.succ_eq_add_one]
    have harith : c + (i + 1) + 1 = c + 1 + i + 1 := by omega
    rw [harith]
  rw [heq]
  have h0 : c + 0 + 1 = c + 1 := by omega
  rw [h0]
  cases h : (c + 1) % BATCH_SIZE == 0 <;> simp [h]

theorem writesFrom_snoc (c n : Nat) :
    writesFrom c (n + 1) =
      writesFrom c n ++
        (if (c + n + 1) % BATCH_SIZE == 0 then [c + n + 1] else []) := by
  unfold writesFrom
  rw [List.range_succ, List.filterMap_append]
  cases h : (c + n + 1) % BATCH_SIZE == 0 with
  | false =>
      have h' : ¬ (c + n + 1) % BATCH_SIZE = 0 := by simpa using h
      simp [h']
  | true =>
      have h' : (c + n + 1) % BATCH_SIZE = 0 := by simpa using h
      simp [h']

theorem writesFrom_append (c m n : Nat) :
    writesFrom c m ++ writesFrom (c + m) n = writesFrom c (m + n) := by
  induction m generalizing c with
  | zero => simp [writesFrom_zero]
  | succ m ih =>
      rw [writesFrom_succ c m]
      have harith2 : m + 1 + n = (m + n) + 1 := by omega
      rw [harith2, writesFrom_succ c (m + n)]
      have harith : c + (m + 1) = c + 1 + m := by omega
      rw [harith, List.append_assoc, ih (c + 1)]

/-- A phase whose service calls all succeed processes every row, advances the
counter by the row count, and persists exactly the checkpoint writes. -/
theorem runPhase_ok (fails : Row → Bool) (rows : List Row) (st : RunState)
    (h : ∀ r ∈ rows, fails r = false) :
    runPhase fails rows st =
      ({ processedCounter := st.processedCounter + rows.length,
         progressWrites :=
           st.progressWrites ++ writesFrom st.processedCounter rows.length,
         processed := st.processed ++ rows }, none) := by
  induction rows generalizing st with
  | nil => simp [runPhase, writesFrom_zero]
  | cons row rest ih =>
      have hrow : fails row = false := h row (List.mem_cons_self row rest)
      rw [runPhase, if_neg (by simp [hrow])]
      rw [ih _ (fun r hr => h r (List.mem_cons_of_mem row hr))]
      simp only [updateProgress_, Prod.mk.injEq, RunState.mk.injEq,
        List.length_cons]
      refine ⟨⟨by omega, ?_, by simp⟩, trivial⟩
      rw [writesFrom_succ]
      cases hw : (st.processedCounter + 1) % BATCH_SIZE == 0 <;>
        simp [hw, List.append_assoc]

/-- A phase hitting a failing row processes exactly the rows before it and
raises the diagnostic error for the failing row. -/
theorem runPhase_fail (fails : Row → Bool) (pre : List Row) (row : Row)
    (post : List Row) (st : RunState)
    (hpre : ∀ r ∈ pre, fails r = false) (hfail : fails row = true) :
    runPhase fails (pre ++ row :: post) st =
      ({ processedCounter := st.processedCounter + pre.length,
         progressWrites :=
           st.progressWrites ++ writesFrom st.processedCounter pre.length,
         processed := st.processed ++ pre }, some (handleImportError_ row)) := by
  induction pre generalizing st with
  | nil => simp [runPhase, hfail, writesFrom_zero]
  | cons q rest ih =>
      have hq : fails q = false := hpre q (List.mem_cons_self q rest)
      rw [List.cons_append, runPhase, if_neg (by simp [hq])]
      rw [ih _ (fun r hr => hpre r (List.mem_cons_of_mem q hr))]
      simp only [updateProgress_, Prod.mk.injEq, RunState.mk.injEq,
        List.length_cons]
      refine ⟨⟨by omega, ?_, by simp⟩, trivial⟩
      rw [writesFrom_succ]
      cases hw : (st.processedCounter + 1) % BATCH_SIZE == 0 <;>
        simp [hw, List.append_assoc]

/-- C2: if, during the commit phases, the first failing service call hits
`row` in phase `op` (every row of every earlier phase and every row before
`row` in phase `op` succeeding), then `processJob` raises exactly the uniform
invalid-data diagnostic of `handleImportError_ row` — identifying the row's
product id, product handle, variant id and variant sku — and the rows
processed are exactly those of the earlier phases plus the rows before `row`:
no later row and no later phase runs, and `finalize_` never fires. -/
theorem processJob_failFast (fails : OperationType → Row → Bool)
    (ops : ImportOps) (total : Nat) (op : OperationType)
    (pre post : List Row) (row : Row)
    (hearlier : ∀ o ∈ earlierPhases op, ∀ r ∈ phaseRows ops o, fails o r = false)
    (hsplit : phaseRows ops op = pre ++ row :: post)
    (hpre : ∀ r ∈ pre, fails op r = false)
    (hfail : fails op row = true) :
    (processJob fails ops total).2 = some (handleImportError_ row) ∧
    (processJob fails ops total).1.processed =
      (earlierPhases op).flatMap (phaseRows ops) ++ pre := by
  cases op with
  | ProductCreate =>
      simp only [phaseRows] at hsplit
      have h1 := runPhase_fail (fails .ProductCreate) pre row post
        ({} : RunState) hpre hfail
      rw [← hsplit] at h1
      simp only [processJob, h1]
      constructor
      · trivial
      · show ({} : RunState).processed ++ pre = _
        simp [earlierPhases, opOrder]
  | ProductUpdate =>
      simp only [phaseRows] at hsplit
      have hepc : ∀ r ∈ ops.productsCreate, fails .ProductCreate r = false := by
        intro r hr
        exact hearlier .ProductCreate (by simp [earlierPhases, opOrder]) r hr
      have h1 := runPhase_ok (fails .ProductCreate) ops.productsCreate
        ({} : RunState) hepc
      have h2 := runPhase_fail (fails .ProductUpdate) pre row post
        ({ processedCounter := (0 : Nat) + ops.productsCreate.length,
           progressWrites := [] ++ writesFrom 0 ops.productsCreate.length,
           processed := [] ++ ops.productsCreate }) hpre hfail
      rw [← hsplit] at h2
      simp only [processJob, h1, h2]
      constructor
      · trivial
      · simp [earlierPhases, opOrder, phaseRows]
  | VariantCreate =>
      simp only [phaseRows] at hsplit
      have hepc : ∀ r ∈ ops.productsCreate, fails .ProductCreate r = false := by
        intro r hr
        exact hearlier .ProductCreate (by simp [earlierPhases, opOrder]) r hr
      have hepu : ∀ r ∈ ops.productsUpdate, fails .ProductUpdate r = false := by
        intro r hr
        exact hearlier .ProductUpdate (by simp [earlierPhases, opOrder]) r hr
      have h1 := runPhase_ok (fails .ProductCreate) ops.productsCreate
        ({} : RunState) hepc
      have h2 := runPhase_ok (fails .ProductUpdate) ops.productsUpdate
        ({ processedCounter := (0 : Nat) + ops.productsCreate.length,
           progressWrites := [] ++ writesFrom 0 ops.productsCreate.length,
           processed := [] ++ ops.productsCreate }) hepu
      have h3 := runPhase_fail (fails .VariantCreate) pre row post
        ({ processedCounter :=
             (0 : Nat) + ops.productsCreate.length + ops.productsUpdate.length,
           progressWrites :=
             ([] ++ writesFrom 0 ops.productsCreate.length) ++
               writesFrom ((0 : Nat) + ops.productsCreate.length)
                 ops.productsUpdate.length,
           processed := ([] ++ ops.productsCreate) ++ ops.productsUpdate })
        hpre hfail
      rw [← hsplit] at h3
      simp only [processJob, h1, h2, h3]
      constructor
      · trivial
      · simp [earlierPhases, opOrder, phaseRows]
  | VariantUpdate =>
      simp only [phaseRows] at hsplit
      have hepc : ∀ r ∈ ops.productsCreate, fails .ProductCreate r = false := by
        intro r hr
        exact hearlier .ProductCreate (by simp [earlierPhases, opOrder]) r hr
      have hepu : ∀ r ∈ ops.productsUpdate, fails .ProductUpdate r = false := by
        intro r hr
        exact hearlier .ProductUpdate (by simp [earlierPhases, opOrder]) r hr
      have hevc : ∀ r ∈ ops.variantsCreate, fails .VariantCreate r = false := by
        intro r hr
        exact hearlier .VariantCreate (by simp [earlierPhases, opOrder]) r hr
      have h1 := runPhase_ok (fails .ProductCreate) ops.productsCreate
        ({} : RunState) hepc
      have h2 := runPhase_ok (fails .ProductUpdate) ops.productsUpdate
        ({ processedCounter := (0 : Nat) + ops.productsCreate.length,
           progressWrites := [] ++ writesFrom 0 ops.productsCreate.length,
           processed := [] ++ ops.productsCreate }) hepu
      have h3 := runPhase_ok (fails .VariantCreate) ops.variantsCreate
        ({ processedCounter :=
             (0 : Nat) + ops.productsCreate.length + ops.productsUpdate.length,
           progressWrites :=
             ([] ++ writesFrom 0 ops.productsCreate.length) ++
               writesFrom ((0 : Nat) + ops.productsCreate.length)
                 ops.productsUpdate.length,
           processed := ([] ++ ops.productsCreate) ++ ops.productsUpdate }) hevc
      have h4 := runPhase_fail (fails .VariantUpdate) pre row post
        ({ processedCounter :=
             (0 : Nat) + ops.productsCreate.length + ops.productsUpdate.length +
               ops.variantsCreate.length,
           progressWrites :=
             (([] ++ writesFrom 0 ops.productsCreate.length) ++
               writesFrom ((0 : Nat) + ops.productsCreate.length)
                 ops.productsUpdate.length) ++
               writesFrom
                 ((0 : Nat) + ops.productsCreate.length + ops.productsUpdate.length)
                 ops.variantsCreate.length,
           processed :=
             (([] ++ ops.productsCreate) ++ ops.productsUpdate) ++
               ops.variantsCreate }) hpre hfail
      rw [← hsplit] at h4
      simp only [processJob, h1, h2, h3, h4]
      constructor
      · trivial
      · simp [earlierPhases, opOrder, phaseRows]

/-- Closed witness for `processJob_failFast`: the single variant-create row
fails after the single product-create row succeeded. -/
theorem processJob_failFast_witness :
    ((∀ o ∈ earlierPhases .VariantCreate,
        ∀ r ∈ phaseRows
            { productsCreate := [[("product.handle", .str "shirt")]],
              variantsCreate := [[("product.handle", .str "shirt"),
                ("variant.sku", .str "sku-1")]] } o,
          (fun (op : OperationType) (_ : Row) => op == .VariantCreate) o r = false) ∧
      phaseRows
          { productsCreate := [[("product.handle", .str "shirt")]],
            variantsCreate := [[("product.handle", .str "shirt"),
              ("variant.sku", .str "sku-1")]] } .VariantCreate =
        [] ++ [("product.handle", .str "shirt"), ("variant.sku", .str "sku-1")] :: [] ∧
      (∀ r ∈ ([] : List Row),
        (fun (op : OperationType) (_ : Row) => op == .VariantCreate) .VariantCreate r = false) ∧
      (fun (op : OperationType) (_ : Row) => op == .VariantCreate) .VariantCreate
        [("product.handle", .str "shirt"), ("variant.sku", .str "sku-1")] = true) ∧
    ((processJob (fun op _ => op == .VariantCreate)
        { productsCreate := [[("product.handle", .str "shirt")]],
          variantsCreate := [[("product.handle", .str "shirt"),
            ("variant.sku", .str "sku-1")]] } 2).2 =
      some (handleImportError_
        [("product.handle", .str "shirt"), ("variant.sku", .str "sku-1")]) ∧
    (processJob (fun op _ => op == .VariantCreate)
        { productsCreate := [[("product.handle", .str "shirt")]],
          variantsCreate := [[("product.handle", .str "shirt"),
            ("variant.sku", .str "sku-1")]] } 2).1.processed =
      (earlierPhases .VariantCreate).flatMap
        (phaseRows
          { productsCreate := [[("product.handle", .str "shirt")]],
            variantsCreate := [[("product.handle", .str "shirt"),
              ("variant.sku", .str "sku-1")]] }) ++ []) :=
  ⟨⟨by decide, by rfl, by decide, by decide⟩,
    processJob_failFast (fun op _ => op == .VariantCreate)
      { productsCreate := [[("product.handle", .str "shirt")]],
        variantsCreate := [[("product.handle", .str "shirt"),
          ("variant.sku", .str "sku-1")]] } 2 .VariantCreate [] []
      [("product.handle", .str "shirt"), ("variant.sku", .str "sku-1")]
      (by decide) (by rfl) (by decide) (by decide)⟩

theorem writesFrom_zero_eq_checkpoints (n : Nat) :
    writesFrom 0 n = progressCheckpoints n := by
  induction n with
  | zero => rfl
  | succ n ih =>
      rw [writesFrom_snoc, ih]
      unfold progressCheckpoints
      by_cases hmod : (n + 1) % BATCH_SIZE = 0
      · have hdiv : (n + 1) / BATCH_SIZE = n / BATCH_SIZE + 1 := by
          simp only [BATCH_SIZE] at hmod ⊢
          omega
        rw [hdiv, List.range_succ, List.map_append]
        have hval : BATCH_SIZE * (n / BATCH_SIZE + 1) = n + 1 := by
          simp only [BATCH_SIZE] at hmod ⊢
          omega
        simp [hmod, hval]
      · have hdiv : (n + 1) / BATCH_SIZE = n / BATCH_SIZE := by
          simp only [BATCH_SIZE] at hmod ⊢
          omega
        rw [hdiv]
        simp [hmod]

theorem progressCheckpoints_mem (n k : Nat) :
    k ∈ progressCheckpoints n ↔
      (k % BATCH_SIZE = 0 ∧ 1 ≤ k ∧ k ≤ n) := by
  unfold progressCheckpoints
  simp only [List.mem_map, List.mem_range, BATCH_SIZE]
  constructor
  · rintro ⟨i, hi, rfl⟩
    refine ⟨by omega, by omega, by omega⟩
  · rintro ⟨hmod, h1, h2⟩
    exact ⟨k / 100 - 1, by omega, by omega⟩

/-- C5: on a fully successful commit run starting from a fresh counter, the
progress values persisted to the job context are exactly the multiples of
`BATCH_SIZE` the cumulative processed-row counter passes through
(`100, 200, …`), followed by one final write of the job's `total` at
completion; the middle conjunct pins down that the checkpoints are exactly
the non-zero multiples of `BATCH_SIZE` not exceeding the number of staged
rows. -/
theorem processJob_progress_checkpoints (ops : ImportOps) (total : Nat) :
    (processJob (fun _ _ => false) ops total).1.progressWrites =
      progressCheckpoints (opsTotal ops) ++ [total] ∧
    (∀ k, k ∈ progressCheckpoints (opsTotal ops) ↔
      (k % BATCH_SIZE = 0 ∧ 1 ≤ k ∧ k ≤ opsTotal ops)) ∧
    (processJob (fun _ _ => false) ops total).2 = none := by
  have hA : ∀ m n : Nat,
      writesFrom 0 m ++ writesFrom m n = writesFrom 0 (m + n) := by
    intro m n
    simpa using writesFrom_append 0 m n
  have h1 := runPhase_ok (fun _ => false) ops.productsCreate
    ({} : RunState) (fun r _ => rfl)
  have h2 := runPhase_ok (fun _ => false) ops.productsUpdate
    ({ processedCounter := (0 : Nat) + ops.productsCreate.length,
       progressWrites := [] ++ writesFrom 0 ops.productsCreate.length,
       processed := [] ++ ops.productsCreate }) (fun r _ => rfl)
  have h3 := runPhase_ok (fun _ => false) ops.variantsCreate
    ({ processedCounter :=
         (0 : Nat) + ops.productsCreate.length + ops.productsUpdate.length,
       progressWrites :=
         ([] ++ writesFrom 0 ops.productsCreate.length) ++
           writesFrom ((0 : Nat) + ops.productsCreate.length)
             ops.productsUpdate.length,
       processed := ([] ++ ops.productsCreate) ++ ops.productsUpdate })
    (fun r _ => rfl)
  have h4 := runPhase_ok (fun _ => false) ops.variantsUpdate
    ({ processedCounter :=
         (0 : Nat) + ops.productsCreate.length + ops.productsUpdate.length +
           ops.variantsCreate.length,
       progressWrites :=
         (([] ++ writesFrom 0 ops.productsCreate.length) ++
           writesFrom ((0 : Nat) + ops.productsCreate.length)
             ops.productsUpdate.length) ++
           writesFrom
             ((0 : Nat) + ops.productsCreate.length + ops.productsUpdate.length)
             ops.variantsCreate.length,
       processed :=
         (([] ++ ops.productsCreate) ++ ops.productsUpdate) ++
           ops.variantsCreate }) (fun r _ => rfl)
  refine ⟨?_, fun k => progressCheckpoints_mem (opsTotal ops) k, ?_⟩
  · simp only [processJob, h1, h2, h3, h4, finalize_]
    rw [← writesFrom_zero_eq_checkpoints]
    have hz : (0 : Nat) + ops.productsCreate.length = ops.productsCreate.length := by
      omega
    simp only [List.nil_append, hz]
    rw [hA ops.productsCreate.length ops.productsUpdate.length,
      hA (ops.productsCreate.length + ops.productsUpdate.length)
        ops.variantsCreate.length,
      hA (ops.productsCreate.length + ops.productsUpdate.length +
        ops.variantsCreate.length) ops.variantsUpdate.length]
    rfl
  · simp only [processJob, h1, h2, h3, h4]

/-- C9: `clearRedisRecords` issues `DEL` on the single literal key
`pij_<jobId>:*`; Redis `DEL` does not expand `*`, so a batch previously
staged under `pij_<jobId>:PRODUCT_CREATE` survives and is still returned
afterwards — not the empty sequence the claim requires. -/
theorem clearRedisRecords_leaves_staged_data :
    getImportDataFromRedis
        (clearRedisRecords "job-1"
          (setImportDataToRedis "job-1"
            { productsCreate := [[("product.handle", .str "shirt")]] } []))
        "job-1" .ProductCreate =
      [[("product.handle", .str "shirt")]] ∧
    [[("product.handle", CellValue.str "shirt")]] ≠ ([] : List Row) :=
  ⟨by rfl, by decide⟩

theorem jsSplit_append_of_not_mem (sep : Char) (w rest : List Char)
    (hw : sep ∉ w) :
    jsSplit sep (w ++ sep :: rest) = w :: jsSplit sep rest := by
  induction w with
  | nil => simp [jsSplit]
  | cons c cs ih =>
      have h1 : sep ≠ c ∧ sep ∉ cs := by simpa using hw
      have hcs : ¬ ((c == sep) = true) := by
        simp only [beq_iff_eq]
        exact fun h => h1.1 h.symm
      rw [List.cons_append, jsSplit, if_neg hcs, ih h1.2]

theorem getPrices_rowSet (r : Row) (l : List PriceObj) :
    getPrices (rowSet r "variant.prices" (.prices l)) = l := by
  unfold getPrices
  rw [rowGet_rowSet_self]

/-- `key.split(" ")[1]` on a canonical region-price header picks out only the
first space-separated word of the region name. -/
theorem splitToken1_price_header (w rest code : String) (hw : ' ' ∉ w.data) :
    splitToken1 ("Price " ++ (w ++ " " ++ rest) ++ " [" ++ code ++ "]") =
      some w := by
  unfold splitToken1
  have hdata : ("Price " ++ (w ++ " " ++ rest) ++ " [" ++ code ++ "]").data =
      ['P', 'r', 'i', 'c', 'e'] ++ ' ' ::
        (w.data ++ ' ' :: (rest.data ++ (" [".data ++ (code.data ++ "]".data)))) := by
    simp only [String.data_append, List.append_assoc]
    rfl
  rw [hdata, jsSplit_append_of_not_mem ' ' ['P', 'r', 'i', 'c', 'e'] _ (by decide),
    jsSplit_append_of_not_mem ' ' w.data _ hw]
  rfl

/-- C10: on a region-price header `Price <Name> [<CODE>]` whose `<Name>` is
`w` followed by a space and a remainder, the reducer pushes a price entry
whose `regionName` is only the first word `w`, silently dropping the rest of
the region name. -/
theorem priceRegionReducer_truncates_region_name (builtLine : Row)
    (w rest code amt : String) (hw : ' ' ∉ w.data) :
    getPrices (priceRegionReducer builtLine
        ("Price " ++ (w ++ " " ++ rest) ++ " [" ++ code ++ "]") (some amt)) =
      getPrices builtLine ++ [{ amount := some amt, regionName := some w }] ∧
    some w ≠ some (w ++ " " ++ rest) := by
  constructor
  · unfold priceRegionReducer
    rw [splitToken1_price_header w rest code hw]
    exact getPrices_rowSet _ _
  · intro hcontra
    have hlen := congrArg (fun s : String => s.data.length) (Option.some.injEq _ _ ▸ hcontra : w = w ++ " " ++ rest)
    simp [String.data_append] at hlen

/-- Closed witness for `priceRegionReducer_truncates_region_name` at the
header `Price New Zealand [NZD]`: the recorded region name is `"New"`. -/
theorem priceRegionReducer_truncates_witness :
    (' ' ∉ "New".data) ∧
    (getPrices (priceRegionReducer []
        ("Price " ++ ("New" ++ " " ++ "Zealand") ++ " [" ++ "NZD" ++ "]")
        (some "110")) =
      getPrices [] ++ [{ amount := some "110", regionName := some "New" }] ∧
    some "New" ≠ some ("New" ++ " " ++ "Zealand")) :=
  ⟨by decide,
    priceRegionReducer_truncates_region_name [] "New" "Zealand" "NZD" "110"
      (by decide)⟩

end ProductImport

namespace ProductExport

theorem foldl_max_perm {α : Type} (g : α → Nat) {l₁ l₂ : List α}
    (h : l₁.Perm l₂) (a : Nat) :
    l₁.foldl (fun m x => max m (g x)) a = l₂.foldl (fun m x => max m (g x)) a := by
  haveI : RightCommutative (fun (m : Nat) (x : α) => max m (g x)) :=
    ⟨fun b a₁ a₂ => by
      rw [Nat.max_assoc, Nat.max_comm (g a₁) (g a₂), ← Nat.max_assoc]⟩
  exact h.foldl_eq a

theorem mem_foldl_jsSetAdd (xs acc : List PriceKey) (k : PriceKey) :
    k ∈ xs.foldl jsSetAdd acc ↔ k ∈ acc ∨ k ∈ xs := by
  induction xs generalizing acc with
  | nil => simp
  | cons x xs ih =>
      simp only [List.foldl_cons, ih]
      unfold jsSetAdd
      by_cases hx : x ∈ acc
      · rw [if_pos hx]
        constructor
        · rintro (h | h)
          · exact Or.inl h
          · exact Or.inr (List.mem_cons_of_mem x h)
        · rintro (h | h)
          · exact Or.inl h
          · rcases List.mem_cons.mp h with rfl | h'
            · exact Or.inl hx
            · exact Or.inr h'
      · rw [if_neg hx]
        constructor
        · rintro (h | h)
          · rcases List.mem_append.mp h with h' | h'
            · exact Or.inl h'
            · exact Or.inr (List.mem_cons.mpr (Or.inl (List.mem_singleton.mp h')))
          · exact Or.inr (List.mem_cons_of_mem x h)
        · rintro (h | h)
          · exact Or.inl (List.mem_append_left _ h)
          · rcases List.mem_cons.mp h with rfl | h'
            · exact Or.inl (List.mem_append_right _ (List.mem_singleton_self k))
            · exact Or.inr h'

theorem mem_foldl_productPriceKeys (products : List ExpProduct)
    (acc : List PriceKey) (k : PriceKey) :
    k ∈ products.foldl
        (fun acc p => (productPriceKeys p).foldl jsSetAdd acc) acc ↔
      k ∈ acc ∨ ∃ p ∈ products, k ∈ productPriceKeys p := by
  induction products generalizing acc with
  | nil => simp
  | cons p ps ih =>
      simp only [List.foldl_cons, ih, mem_foldl_jsSetAdd]
      constructor
      · rintro ((h | h) | ⟨q, hq, hk⟩)
        · exact Or.inl h
        · exact Or.inr ⟨p, List.mem_cons_self p ps, h⟩
        · exact Or.inr ⟨q, List.mem_cons_of_mem p hq, hk⟩
      · rintro (h | ⟨q, hq, hk⟩)
        · exact Or.inl (Or.inl h)
        · rcases List.mem_cons.mp hq with rfl | hq'
          · exact Or.inl (Or.inr hk)
          · exact Or.inr ⟨q, hq', hk⟩

theorem mem_discoverShape_prices (products : List ExpProduct) (k : PriceKey) :
    k ∈ (discoverShape products).prices ↔
      ∃ p ∈ products, k ∈ productPriceKeys p := by
  have h := mem_foldl_productPriceKeys products [] k
  simp only [List.not_mem_nil, false_or] at h
  exact h

/-- C7: permuting the products seen by the shape discoverer leaves the
discovered `dynamicOptionColumnCount`, `dynamicImageColumnCount` and the set
of distinct price keys unchanged. -/
theorem discoverShape_perm_invariant (l₁ l₂ : List ExpProduct)
    (hperm : l₁.Perm l₂) :
    (discoverShape l₁).dynamicOptionColumnCount =
      (discoverShape l₂).dynamicOptionColumnCount ∧
    (discoverShape l₁).dynamicImageColumnCount =
      (discoverShape l₂).dynamicImageColumnCount ∧
    ∀ k, k ∈ (discoverShape l₁).prices ↔ k ∈ (discoverShape l₂).prices := by
  refine ⟨?_, ?_, ?_⟩
  · exact foldl_max_perm (fun p => p.options.length) hperm 0
  · exact foldl_max_perm (fun p => p.images.length) hperm 0
  · intro k
    rw [mem_discoverShape_prices, mem_discoverShape_prices]
    constructor
    · rintro ⟨p, hp, hk⟩
      exact ⟨p, hperm.mem_iff.mp hp, hk⟩
    · rintro ⟨p, hp, hk⟩
      exact ⟨p, hperm.mem_iff.mpr hp, hk⟩

/-- Closed witness for `discoverShape_perm_invariant`: swapping two concrete
products. -/
theorem discoverShape_perm_invariant_witness :
    (([⟨["Size", "Color"], ["a.png"], []⟩, ⟨["Size"], [], []⟩] :
        List ExpProduct).Perm
      [⟨["Size"], [], []⟩, ⟨["Size", "Color"], ["a.png"], []⟩]) ∧
    ((discoverShape [⟨["Size", "Color"], ["a.png"], []⟩,
        ⟨["Size"], [], []⟩]).dynamicOptionColumnCount =
      (discoverShape [⟨["Size"], [], []⟩,
        ⟨["Size", "Color"], ["a.png"], []⟩]).dynamicOptionColumnCount ∧
    (discoverShape [⟨["Size", "Color"], ["a.png"], []⟩,
        ⟨["Size"], [], []⟩]).dynamicImageColumnCount =
      (discoverShape [⟨["Size"], [], []⟩,
        ⟨["Size", "Color"], ["a.png"], []⟩]).dynamicImageColumnCount) :=
  ⟨List.Perm.swap _ _ [],
    (discoverShape_perm_invariant _ _ (List.Perm.swap _ _ [])).1,
    (discoverShape_perm_invariant _ _ (List.Perm.swap _ _ [])).2.1⟩

end ProductExport

namespace ProductExport

theorem foldl_mapSet_fresh (names : List String) :
    ∀ (cols : List String), names.Nodup → (∀ n ∈ names, n ∉ cols) →
      names.foldl mapSet cols = cols ++ names := by
  induction names with
  | nil => intro cols _ _; simp
  | cons n ns ih =>
      intro cols hnodup hfresh
      have hn : n ∉ cols := hfresh n (List.mem_cons_self n ns)
      have hstep : mapSet cols n = cols ++ [n] := by
        unfold mapSet
        rw [if_neg hn]
      simp only [List.foldl_cons, hstep]
      rw [ih (cols ++ [n]) (List.Nodup.of_cons hnodup)]
      · simp
      · intro m hm
        intro hmem
        rcases List.mem_append.mp hmem with h | h
        · exact hfresh m (List.mem_cons_of_mem n hm) h
        · have hmn : m = n := List.mem_singleton.mp h
          have : n ∉ ns := (List.nodup_cons.mp hnodup).1
          exact this (hmn ▸ hm)

theorem appendMoneyAmountDescriptors_eq_foldl (pricesData : List PriceKey) :
    ∀ cols, appendMoneyAmountDescriptors cols pricesData =
      (pricesData.flatMap priceKeyColumnNames).foldl mapSet cols := by
  induction pricesData with
  | nil => intro cols; rfl
  | cons k ks ih =>
      intro cols
      simp only [appendMoneyAmountDescriptors, List.foldl_cons,
        List.flatMap_cons, List.foldl_append]
      exact ih _

theorem appendOptionsDescriptors_eq_foldl (c : Nat) (cols : List String) :
    appendOptionsDescriptors cols c =
      ((List.range c).flatMap
        (fun i => ["Option " ++ toString (i + 1) ++ " Name",
                   "Option " ++ toString (i + 1) ++ " Value"])).foldl mapSet cols := by
  unfold appendOptionsDescriptors
  generalize List.range c = l
  induction l generalizing cols with
  | nil => rfl
  | cons i l ih =>
      simp only [List.foldl_cons, List.flatMap_cons, List.foldl_append]
      exact ih _

theorem appendImagesDescriptors_eq_foldl (c : Nat) (cols : List String) :
    appendImagesDescriptors cols c =
      ((List.range c).map
        (fun i => "Image " ++ toString (i + 1) ++ " Url")).foldl mapSet cols := by
  unfold appendImagesDescriptors
  rw [List.foldl_map]

theorem buildHeader_eq_foldl (staticColumns : List String) (shape : Shape) :
    buildHeader staticColumns shape =
      (dynamicColumnNames shape).foldl mapSet staticColumns := by
  unfold buildHeader dynamicColumnNames
  rw [appendMoneyAmountDescriptors_eq_foldl, appendOptionsDescriptors_eq_foldl,
    appendImagesDescriptors_eq_foldl, List.foldl_append, List.foldl_append]

theorem priceKeyColumnNames_length (k : PriceKey) :
    (priceKeyColumnNames k).length =
      (if hasTruthyCurrency k then 1 else 0) +
        (if k.region.isSome then 1 else 0) := by
  unfold priceKeyColumnNames hasTruthyCurrency
  cases hc : k.currency_code with
  | none => cases hr : k.region <;> simp
  | some cc =>
      cases hr : k.region <;> by_cases hcc : cc != "" <;>
        simp [hcc]

theorem flatMap_priceKeyColumnNames_length (pricesData : List PriceKey) :
    (pricesData.flatMap priceKeyColumnNames).length =
      pricesData.countP hasTruthyCurrency +
        pricesData.countP (fun k => k.region.isSome) := by
  induction pricesData with
  | nil => rfl
  | cons k ks ih =>
      simp only [List.flatMap_cons, List.length_append, ih,
        priceKeyColumnNames_length, List.countP_cons]
      by_cases h1 : hasTruthyCurrency k <;>
        by_cases h2 : k.region.isSome <;> simp [h1, h2] <;> omega

theorem pairs_flatMap_length (f g : Nat → String) (l : List Nat) :
    (l.flatMap (fun i => [f i, g i])).length = 2 * l.length := by
  induction l with
  | nil => rfl
  | cons i l ih =>
      simp only [List.flatMap_cons, List.length_append, ih, List.length_cons,
        List.length_nil]
      omega

/-- C8 counterexample: a single distinct price key that carries both a
currency code and a region makes `appendMoneyAmountDescriptors` append two
price columns (`Price USD (reg_1)` and `Price denmark (reg_1)`) — not
exactly one column per distinct price key. -/
theorem appendMoneyAmount_two_columns_per_region_key :
    (appendMoneyAmountDescriptors []
        [{ currency_code := some "USD",
           region := some ("denmark", "reg_1") }]).length = 2 ∧
    ([({ currency_code := some "USD",
         region := some ("denmark", "reg_1") } : PriceKey)]).dedup.length = 1 ∧
    (appendMoneyAmountDescriptors []
        [{ currency_code := some "USD",
           region := some ("denmark", "reg_1") }]).length ≠
      ([({ currency_code := some "USD",
           region := some ("denmark", "reg_1") } : PriceKey)]).dedup.length := by
  decide

/-- C8 (amended): when the generated dynamic column names are pairwise
distinct and absent from the static map, `buildHeader` appends — besides one
option-name/option-value pair per option slot and one image-url column per
image slot — one price column per price key with a truthy currency code plus
one price column per price key carrying a region (so a key with both
contributes two price columns). -/
theorem buildHeader_column_counts (staticColumns : List String) (shape : Shape)
    (hnodup : (dynamicColumnNames shape).Nodup)
    (hfresh : ∀ n ∈ dynamicColumnNames shape, n ∉ staticColumns) :
    buildHeader staticColumns shape = staticColumns ++ dynamicColumnNames shape ∧
    (buildHeader staticColumns shape).length =
      staticColumns.length +
        (shape.prices.countP hasTruthyCurrency +
          shape.prices.countP (fun k => k.region.isSome)) +
        2 * shape.dynamicOptionColumnCount +
        shape.dynamicImageColumnCount := by
  have h1 : buildHeader staticColumns shape =
      staticColumns ++ dynamicColumnNames shape := by
    rw [buildHeader_eq_foldl]
    exact foldl_mapSet_fresh _ staticColumns hnodup hfresh
  refine ⟨h1, ?_⟩
  rw [h1, List.length_append]
  unfold dynamicColumnNames
  simp only [List.length_append, flatMap_priceKeyColumnNames_length,
    pairs_flatMap_length, List.length_map, List.length_range]
  omega

/-- Closed witness for `buildHeader_column_counts` at a concrete shape with
one currency-only key, one region key carrying a currency code, one option
slot and one image slot. -/
theorem buildHeader_column_counts_witness :
    ((dynamicColumnNames
        { dynamicOptionColumnCount := 1, dynamicImageColumnCount := 1,
          prices := [{ currency_code := some "USD" },
            { currency_code := some "DKK",
              region := some ("denmark", "reg_1") }] }).Nodup ∧
      (∀ n ∈ dynamicColumnNames
          { dynamicOptionColumnCount := 1, dynamicImageColumnCount := 1,
            prices := [{ currency_code := some "USD" },
              { currency_code := some "DKK",
                region := some ("denmark", "reg_1") }] },
        n ∉ ["Product Handle"])) ∧
    (buildHeader ["Product Handle"]
        { dynamicOptionColumnCount := 1, dynamicImageColumnCount := 1,
          prices := [{ currency_code := some "USD" },
            { currency_code := some "DKK",
              region := some ("denmark", "reg_1") }] }).length =
      ["Product Handle"].length + (2 + 1) + 2 * 1 + 1 :=
  ⟨⟨by decide, by decide⟩, by
    have h := (buildHeader_column_counts ["Product Handle"]
      { dynamicOptionColumnCount := 1, dynamicImageColumnCount := 1,
        prices := [{ currency_code := some "USD" },
          { currency_code := some "DKK",
            region := some ("denmark", "reg_1") }] }
      (by decide) (by decide)).2
    simpa using h⟩

end ProductExport

namespace ProductExport

theorem chunksGo_fuel_irrel (limit : Nat) (hlim : 1 ≤ limit) :
    ∀ (fuel₁ fuel₂ : Nat) (l : List ExpProduct),
      l.length ≤ fuel₁ → l.length ≤ fuel₂ →
      chunksGo limit fuel₁ l = chunksGo limit fuel₂ l := by
  intro fuel₁
  induction fuel₁ with
  | zero =>
      intro fuel₂ l h1 _
      have : l = [] := List.length_eq_zero.mp (by omega)
      subst this
      cases fuel₂ <;> rfl
  | succ f ih =>
      intro fuel₂ l h1 h2
      cases l with
      | nil => cases fuel₂ <;> rfl
      | cons x xs =>
          cases fuel₂ with
          | zero => simp at h2
          | succ f₂ =>
              show List.take limit (x :: xs) :: _ = List.take limit (x :: xs) :: _
              congr 1
              apply ih
              · have : ((x :: xs).drop limit).length = (x :: xs).length - limit := by
                  simp
                omega
              · have : ((x :: xs).drop limit).length = (x :: xs).length - limit := by
                  simp
                omega

theorem chunks_cons (limit : Nat) (hlim : 1 ≤ limit) (l : List ExpProduct)
    (hne : l ≠ []) :
    chunks limit l = l.take limit :: chunks limit (l.drop limit) := by
  cases l with
  | nil => exact absurd rfl hne
  | cons x xs =>
      show chunksGo limit (x :: xs).length (x :: xs) = _
      have hlen : (x :: xs).length = xs.length + 1 := by simp
      rw [hlen]
      show List.take limit (x :: xs) :: chunksGo limit xs.length ((x :: xs).drop limit) = _
      congr 1
      apply chunksGo_fuel_irrel limit hlim
      · have : ((x :: xs).drop limit).length = (x :: xs).length - limit := by simp
        omega
      · have : ((x :: xs).drop limit).length = (x :: xs).length - limit := by simp
        omega

theorem chunks_nil (limit : Nat) : chunks limit [] = [] := rfl

theorem advTrace_length (adv : Nat) (l : List (List ExpProduct)) :
    (advTrace adv l).length = l.length := by
  induction l generalizing adv with
  | nil => rfl
  | cons c cs ih => simp [advTrace, ih]

/-- The cancellation behaviour of the export page loop: if the check after
page `k` (counting from the loop entry at `pageIdx`) is the first to read
canceled, the loop writes exactly the next `k` pages, persists exactly their
advancement counts, and deletes the file. -/
theorem processPagesGo_cancel (status : Nat → Bool) (all : List ExpProduct)
    (limit : Nat) (hlim : 1 ≤ limit) :
    ∀ (k fuel offset adv pageIdx : Nat) (st : ExportRun),
      1 ≤ k →
      k ≤ (chunks limit (all.drop offset)).length →
      all.length - offset ≤ fuel →
      status (pageIdx + k) = true →
      (∀ j, 1 ≤ j → j < k → status (pageIdx + j) = false) →
      processPagesGo status all limit fuel offset adv pageIdx st =
        { writtenPages :=
            st.writtenPages ++ (chunks limit (all.drop offset)).take k,
          persisted :=
            st.persisted ++
              advTrace adv ((chunks limit (all.drop offset)).take k),
          fileDeleted := true } := by
  intro k
  induction k with
  | zero => intro fuel offset adv pageIdx st h1; omega
  | succ k ihk =>
      intro fuel offset adv pageIdx st _ hk hfuel hst hsf
      have hne : all.drop offset ≠ [] := by
        intro hdrop
        rw [hdrop, chunks_nil] at hk
        simp at hk
      have hofflt : offset < all.length := by
        by_contra hge
        exact hne (List.drop_eq_nil_iff.mpr (by omega))
      cases fuel with
      | zero => omega
      | succ f =>
          have hchunks := chunks_cons limit hlim (all.drop offset) hne
          have hpage : (all.drop offset).take limit =
              (all.drop offset).take limit := rfl
          simp only [processPagesGo, if_pos hofflt]
          set page := (all.drop offset).take limit with hpagedef
          cases k with
          | zero =>
              rw [if_pos (by simpa using hst)]
              rw [hchunks]
              simp [advTrace]
          | succ k' =>
              have hstat1 : status (pageIdx + 1) = false :=
                hsf 1 (by omega) (by omega)
              rw [if_neg (by simp [hstat1])]
              have hlenrem : limit < (all.drop offset).length := by
                by_contra hle
                rw [hchunks] at hk
                have hdropnil : (all.drop offset).drop limit = [] :=
                  List.drop_eq_nil_iff.mpr (by omega)
                rw [hdropnil, chunks_nil] at hk
                simp at hk
              have hdl : (all.drop offset).length = all.length - offset := by
                simp
              have hpagelen : page.length = limit := by
                rw [hpagedef, List.length_take, hdl]
                rw [hdl] at hlenrem
                omega
              have hdropeq : all.drop (offset + page.length) =
                  (all.drop offset).drop limit := by
                rw [hpagelen]
                exact (List.drop_drop limit offset all).symm
              have hrec := ihk f (offset + page.length)
                (adv + page.length) (pageIdx + 1)
                { st with
                  writtenPages := st.writtenPages ++ [page],
                  persisted := st.persisted ++ [adv + page.length] }
                (by omega)
                (by
                  rw [hdropeq]
                  rw [hchunks] at hk
                  simpa using hk)
                (by
                  have hdroplen : (all.drop offset).length =
                      all.length - offset := by simp
                  omega)
                (by
                  have : pageIdx + 1 + (k' + 1) = pageIdx + (k' + 1 + 1) := by
                    omega
                  rw [this]
                  exact hst)
                (by
                  intro j hj1 hj2
                  have : pageIdx + 1 + j = pageIdx + (j + 1) := by omega
                  rw [this]
                  exact hsf (j + 1) (by omega) (by omega))
              rw [hrec, hdropeq, hchunks]
              simp only [List.take_succ_cons, advTrace, List.append_assoc,
                List.cons_append, List.nil_append]

/-- C6: starting the export loop at the beginning of the dataset, if the
status check after page `k` is the first to read canceled (`k` at most the
number of pages), then exactly pages `1..k` are written to the output
stream, the partially written file is deleted, and the persisted
`advancement_count` trace is exactly that of pages `1..k` — the job result
keeps the value persisted for page `k`, and no later page is written or
persisted. -/
theorem processJob_cancel (status : Nat → Bool) (all : List ExpProduct)
    (limit k : Nat) (hlim : 1 ≤ limit) (hk1 : 1 ≤ k)
    (hkle : k ≤ (chunks limit all).length)
    (hcancel : status k = true)
    (hbefore : ∀ j, 1 ≤ j → j < k → status j = false) :
    processJob status all limit =
      { writtenPages := (chunks limit all).take k,
        persisted := advTrace 0 ((chunks limit all).take k),
        fileDeleted := true } ∧
    (processJob status all limit).persisted.length = k := by
  have h := processPagesGo_cancel status all limit hlim k (all.length + 1)
    0 0 0 {} hk1 (by simpa using hkle) (by omega)
    (by simpa using hcancel)
    (by intro j h1 h2; simpa using hbefore j h1 h2)
  simp only [List.drop_zero] at h
  refine ⟨?_, ?_⟩
  · unfold processJob
    rw [h]
    rfl
  · unfold processJob
    rw [h]
    show (advTrace 0 ((chunks limit all).take k)).length = k
    rw [advTrace_length]
    simp
    omega

/-- Closed witness for `processJob_cancel`: three one-product pages, the
status flipping to canceled at the check after page 2. -/
theorem processJob_cancel_witness :
    (1 ≤ 1 ∧ 1 ≤ 2 ∧
      2 ≤ (chunks 1 [(⟨["Size"], [], []⟩ : ExpProduct), ⟨[], ["a.png"], []⟩,
        ⟨[], [], []⟩]).length ∧
      ((fun j => j == 2) : Nat → Bool) 2 = true ∧
      ((fun j => j == 2) : Nat → Bool) 1 = false) ∧
    (processJob (fun j => j == 2)
        [(⟨["Size"], [], []⟩ : ExpProduct), ⟨[], ["a.png"], []⟩, ⟨[], [], []⟩]
        1 =
      { writtenPages :=
          (chunks 1 [(⟨["Size"], [], []⟩ : ExpProduct), ⟨[], ["a.png"], []⟩,
            ⟨[], [], []⟩]).take 2,
        persisted :=
          advTrace 0 ((chunks 1 [(⟨["Size"], [], []⟩ : ExpProduct),
            ⟨[], ["a.png"], []⟩, ⟨[], [], []⟩]).take 2),
        fileDeleted := true } ∧
      (processJob (fun j => j == 2)
        [(⟨["Size"], [], []⟩ : ExpProduct), ⟨[], ["a.png"], []⟩, ⟨[], [], []⟩]
        1).persisted.length = 2) :=
  ⟨⟨by decide, by decide, by decide, by decide, by decide⟩,
    processJob_cancel (fun j => j == 2)
      [⟨["Size"], [], []⟩, ⟨[], ["a.png"], []⟩, ⟨[], [], []⟩] 1 2
      (by decide) (by decide) (by decide) (by decide)
      (by
        intro j h1 h2
        have : j = 1 := by omega
        subst this
        decide)⟩

end ProductExport
